import Mathlib

/-!
Verification of the `Matrix` class of `matrix.py` (repository `chituma110/cart`).

The class is shallowly embedded: `elements` is the list of rows, numeric cell
values are modelled as integers, and the two label sequences are lists of
strings.  The source is Python 2 (it shuffles `range(...)` objects in place and
divides ints with `/`), so `/` on row counts is floor division.  Fatal faults of
the source (out-of-range indexing, a missing label, a failed numeric cast) are
modelled with `Option`/`Except` results or, for raw element indexing inside
total operations, with the default value `0`.  The process-wide random shuffle
is modelled by an explicit permutation parameter.
-/

namespace Cart

/-- The `Matrix` data model: rows of integer values plus row and column label
sequences.  `column_labels`, when present, has the serialisation placeholder in
slot 0 and one label per data column in slots 1.. . -/
@[ext]
structure Matrix where
  elements : List (List Int)
  row_labels : List String
  column_labels : List String
deriving DecidableEq

namespace Matrix

/-- `rows()` / `len(self)`: the number of rows. -/
def rows (m : Matrix) : Nat := m.elements.length

/-- `columns()`: the length of the first row.  On a zero-row matrix the source
raises an indexing fault; the default `[]` yields `0` here. -/
def columns (m : Matrix) : Nat := (m.elements.getD 0 []).length

/-- `column(index)`: the value at `index` in every row.  Out-of-range indexing,
a fatal fault in the source, is modelled by the default value `0`. -/
def column (m : Matrix) (index : Nat) : List Int :=
  m.elements.map (fun row => row.getD index 0)

/-- `submatrix(rows, columns)`: row `k` of the result selects, in order, the
`columns` positions of source row `rows k`; row labels are selected when the
source has any, and column labels keep the placeholder slot 0 followed by the
selected labels. -/
def submatrix (m : Matrix) (rws cols : List Nat) : Matrix :=
  { elements := rws.map (fun i => cols.map (fun j => (m.elements.getD i []).getD j 0))
    row_labels :=
      if 0 < m.row_labels.length then rws.map (fun i => m.row_labels.getD i "") else []
    column_labels :=
      if 0 < m.column_labels.length then
        m.column_labels.take 1 ++ cols.map (fun j => m.column_labels.getD j "")
      else [] }

/-- The rectangularity invariant of the data model: every row has the length of
the first row. -/
def Rect (m : Matrix) : Prop := ∀ row ∈ m.elements, row.length = m.columns

instance (m : Matrix) : Decidable (Rect m) := List.decidableBAll _ _

/-- `transpose()`: element `(j, i)` of the result is element `(i, j)` of the
source, and the two label sequences are swapped. -/
def transpose (m : Matrix) : Matrix :=
  { elements :=
      (List.range m.columns).map (fun j =>
        (List.range m.rows).map (fun i => (m.elements.getD i []).getD j 0))
    row_labels := m.column_labels
    column_labels := m.row_labels }

/-- `split(column, value)`: the source loops over rows appending each to a fresh
`left` matrix when `row[column] < value` and to a fresh `right` one otherwise;
the loop is exactly `List.partition`, and both fresh matrices have empty
labels. -/
def split (m : Matrix) (col : Nat) (value : Int) : Matrix × Matrix :=
  let p := m.elements.partition (fun row => decide (row.getD col 0 < value))
  (⟨p.1, [], []⟩, ⟨p.2, [], []⟩)

/-- `validate(duplicates_allowed)`: raises on the first row whose length is not
`len(column_labels) - 1`, then if the row count differs from the label count,
then (unless allowed) on duplicate labels; `len(set(l))` is the length of
`l.dedup`. -/
def validate (m : Matrix) (duplicates_allowed : Bool) : Except String Unit :=
  let num_cols : Int := (m.column_labels.length : Int) - 1
  match m.elements.findIdx? (fun row => decide ((row.length : Int) ≠ num_cols)) with
  | some i => .error ("Invalid number of columns in row " ++ toString i)
  | none =>
    if m.elements.length ≠ m.row_labels.length then
      .error "number of row_labels does not match number of rows"
    else if duplicates_allowed = false ∧ m.row_labels.dedup.length ≠ m.row_labels.length then
      .error "Duplicate rows detected"
    else if duplicates_allowed = false ∧ m.column_labels.dedup.length ≠ m.column_labels.length then
      .error "Duplicate columns detected"
    else
      .ok ()

/-- Lexicographic order on `(value, index)` pairs: Python compares the tuples
built by `zip(column, indices)` componentwise when `sorted` sorts them. -/
def intPairLE (a b : Int × Nat) : Prop :=
  a.1 < b.1 ∨ (a.1 = b.1 ∧ a.2 ≤ b.2)

instance : DecidableRel intPairLE := fun a b => by
  unfold intPairLE; infer_instance

instance : IsTotal (Int × Nat) intPairLE := ⟨by
  intro a b
  rcases lt_trichotomy a.1 b.1 with h | h | h
  · exact Or.inl (Or.inl h)
  · rcases Nat.le_total a.2 b.2 with h2 | h2
    · exact Or.inl (Or.inr ⟨h, h2⟩)
    · exact Or.inr (Or.inr ⟨h.symm, h2⟩)
  · exact Or.inr (Or.inl h)⟩

instance : IsTrans (Int × Nat) intPairLE := ⟨by
  intro a b c hab hbc
  rcases hab with h1 | ⟨e1, l1⟩
  · rcases hbc with h2 | ⟨e2, l2⟩
    · exact Or.inl (h1.trans h2)
    · exact Or.inl (by rw [← e2]; exact h1)
  · rcases hbc with h2 | ⟨e2, l2⟩
    · exact Or.inl (by rw [e1]; exact h2)
    · exact Or.inr ⟨e1.trans e2, l1.trans l2⟩⟩

/-- `sorted(column_index)`: zip the column values with the row indices, sort
the pairs (Python's tuple sort realises the lexicographic order, with the
index as tiebreaker), and take the submatrix at the resulting row order with
all columns. -/
def sorted (m : Matrix) (column_index : Nat) : Matrix :=
  let zipped := ((m.column column_index).zip (List.range m.rows)).insertionSort intPairLE
  m.submatrix (zipped.map Prod.snd) (List.range m.columns)

/-- `random_split()`: the in-place shuffle of the row-index list is modelled by
an explicit permutation parameter; the source is Python 2, where both
`num_rows // 2` and `num_rows / 2` are floor division, so the halves are the
first `rows / 2` shuffled indices and the rest, each with all columns. -/
def random_split (m : Matrix) (perm : List Nat) : Matrix × Matrix :=
  let num_rows := m.rows
  let all_cols := List.range m.columns
  let a_rows := perm.take (num_rows / 2)
  let b_rows := perm.drop (num_rows / 2)
  (m.submatrix a_rows all_cols, m.submatrix b_rows all_cols)

/-- `random_subset(n)`: shuffle the row indices (modelled by `perm`) and keep
the first `n`; the Python slice `rows[:n]` silently clamps to the row count
when `n` is larger, as `List.take` does. -/
def random_subset (m : Matrix) (perm : List Nat) (n : Nat) : Matrix :=
  m.submatrix (perm.take n) (List.range m.columns)

/-- `column_by_name(name)`: linear search of `column_labels` for the first
occurrence of `name` (Python `list.index`), then `column(index)`; the
`ValueError` of a missing label is modelled by `none`. -/
def column_by_name (m : Matrix) (name : String) : Option (List Int) :=
  match m.column_labels.findIdx? (fun l => l == name) with
  | some index => some (m.column index)
  | none => none

/-- One step of the `merge` loop: look up `label` in the receiver's row labels
(`get_row`), look it up in `other`, and extend the receiver's row in place; a
missing label raises out of the loop, leaving the receiver in its current,
partially merged state, which is the `Except.error` payload. -/
def mergeRows (other : Matrix) : Matrix → List String → Except Matrix Matrix
  | s, [] => .ok s
  | s, label :: rest =>
    match s.row_labels.findIdx? (fun l => l == label) with
    | none => .error s
    | some i =>
      match other.row_labels.findIdx? (fun l => l == label) with
      | none => .error s
      | some k =>
        mergeRows other
          { s with elements := s.elements.set i (s.elements.getD i [] ++ other.elements.getD k []) }
          rest

/-- `merge(other)`: first appends `other`'s column labels beyond the
placeholder slot to the receiver, then walks `other`'s row labels extending
the matching receiver rows in place; the receiver's state at the moment a row
label lookup fails is the error payload. -/
def merge (self other : Matrix) : Except Matrix Matrix :=
  mergeRows other
    { self with column_labels := self.column_labels ++ other.column_labels.drop 1 }
    other.row_labels

/-- Tokenising one line of a load stream: Python `line.strip().split(chr 9)`. -/
def tokensOf (line : String) : List String := line.trim.splitOn "\t"

/-- The per-line loop of `load`: the index `i` only distinguishes the first
line (column headers).  Each data line first appends its row label (when
`row_headers`), then casts the remaining fields; a failed cast
(`datatype(value)` raising in the source) makes the whole load fail. -/
def loadLines (datatype : String → Option Int) (col_headers row_headers : Bool) :
    Matrix → List String → Nat → Option Matrix
  | s, [], _ => some s
  | s, line :: rest, i =>
    let tokens := tokensOf line
    if col_headers = true ∧ i = 0 then
      loadLines datatype col_headers row_headers
        { s with column_labels := tokens } rest (i + 1)
    else
      let s1 := if row_headers then
          { s with row_labels := s.row_labels ++ [tokens.headD ""] } else s
      let body := if row_headers then tokens.drop 1 else tokens
      match body.mapM datatype with
      | none => none
      | some row =>
        loadLines datatype col_headers row_headers
          { s1 with elements := s1.elements ++ [row] } rest (i + 1)

/-- `load`: resets `elements` — and only `elements` — to empty, then processes
the stream line by line. -/
def load (self : Matrix) (lines : List String) (datatype : String → Option Int)
    (col_headers row_headers : Bool) : Option Matrix :=
  loadLines datatype col_headers row_headers { self with elements := [] } lines 0

/-- The stream-only part of `load`: the rows and row labels a list of data
lines produces, independent of any pre-existing matrix state; used to state
what a completed load is determined by. -/
def pureParse (datatype : String → Option Int) (row_headers : Bool) :
    List String → Option (List (List Int) × List String)
  | [] => some ([], [])
  | line :: rest =>
    let tokens := tokensOf line
    let lab := if row_headers then [tokens.headD ""] else []
    let body := if row_headers then tokens.drop 1 else tokens
    match body.mapM datatype with
    | none => none
    | some row =>
      (pureParse datatype row_headers rest).map (fun er => (row :: er.1, lab ++ er.2))

/-- Lexicographic order on `(label, index)` pairs: Python compares the tuples
built by `zip(row_labels, indices)` componentwise. -/
def strPairLE (a b : String × Nat) : Prop :=
  a.1 < b.1 ∨ (a.1 = b.1 ∧ a.2 ≤ b.2)

instance : DecidableRel strPairLE := fun a b => by
  unfold strPairLE; infer_instance

/-- `sorted_row_labels()`: zip the row labels with the row indices, sort the
pairs, and take the submatrix at the resulting row order. -/
def sorted_row_labels (m : Matrix) : Matrix :=
  let zipped := (m.row_labels.zip (List.range m.rows)).insertionSort strPairLE
  m.submatrix (zipped.map Prod.snd) (List.range m.columns)

end Matrix

/-! Helper lemmas about indexing lists through `List.range`. -/

theorem getD_map_range {α : Type} (f : Nat → α) (d : α) {i n : Nat} (h : i < n) :
    ((List.range n).map f).getD i d = f i := by
  have hlen : i < ((List.range n).map f).length := by simpa using h
  rw [List.getD_eq_getElem _ _ hlen]
  simp

theorem map_range_getD {α : Type} (l : List α) (d : α) :
    (List.range l.length).map (fun i => l.getD i d) = l := by
  apply List.ext_getElem
  · simp
  · intro i h1 h2
    simp [List.getElem?_eq_getElem h2]

theorem submatrix_all_cols (m : Matrix) (hrect : m.Rect) (rws : List Nat)
    (hmem : ∀ i ∈ rws, i < m.rows) :
    (m.submatrix rws (List.range m.columns)).elements
      = rws.map (fun i => m.elements.getD i []) := by
  simp only [Matrix.submatrix]
  apply List.map_congr_left
  intro i hi
  have hilt : i < m.elements.length := hmem i hi
  rw [List.getD_eq_getElem _ _ hilt]
  have hlen : m.elements[i].length = m.columns := hrect _ (List.getElem_mem hilt)
  rw [← hlen]
  exact map_range_getD _ 0

theorem map_getD_range_rows (m : Matrix) :
    (List.range m.rows).map (fun i => m.elements.getD i []) = m.elements :=
  map_range_getD m.elements []

theorem column_getD (m : Matrix) (c : Nat) {i : Nat} (hi : i < m.rows) :
    (m.column c).getD i 0 = (m.elements.getD i []).getD c 0 := by
  have hi' : i < m.elements.length := hi
  have hlen : i < (m.column c).length := by
    simpa [Matrix.column] using hi'
  rw [List.getD_eq_getElem _ _ hlen, List.getD_eq_getElem _ _ hi']
  simp [Matrix.column]

theorem zip_range_snd (vals : List Int) :
    (vals.zip (List.range vals.length)).map Prod.snd = List.range vals.length := by
  apply List.ext_getElem
  · simp
  · intro i h1 h2
    simp [List.getElem_zip]

theorem zip_range_mem (vals : List Int) {pr : Int × Nat}
    (h : pr ∈ vals.zip (List.range vals.length)) :
    pr.1 = vals.getD pr.2 0 ∧ pr.2 < vals.length := by
  rw [List.mem_iff_getElem] at h
  obtain ⟨k, hk, hget⟩ := h
  have hkn : k < vals.length := by
    simpa using hk
  rw [List.getElem_zip] at hget
  have h2 : pr.2 = k := by
    rw [← hget]; simp
  have h1 : pr.1 = vals[k] := by
    rw [← hget]
  subst h2
  refine ⟨?_, hkn⟩
  rw [List.getD_eq_getElem _ _ hkn]
  exact h1

theorem sortedPairs_perm (vals : List Int) :
    (((vals.zip (List.range vals.length)).insertionSort Matrix.intPairLE).map Prod.snd).Perm
      (List.range vals.length) := by
  have h := (List.perm_insertionSort Matrix.intPairLE
    (vals.zip (List.range vals.length))).map Prod.snd
  rwa [zip_range_snd vals] at h

theorem sortedPairs_pairwise (vals : List Int) :
    (((vals.zip (List.range vals.length)).insertionSort Matrix.intPairLE).map Prod.snd).Pairwise
      (fun i j => vals.getD i 0 < vals.getD j 0 ∨ (vals.getD i 0 = vals.getD j 0 ∧ i < j)) := by
  have hsorted : ((vals.zip (List.range vals.length)).insertionSort Matrix.intPairLE).Pairwise
      Matrix.intPairLE :=
    List.sorted_insertionSort Matrix.intPairLE (vals.zip (List.range vals.length))
  have hnodup : (((vals.zip (List.range vals.length)).insertionSort Matrix.intPairLE).map
      Prod.snd).Nodup :=
    ((sortedPairs_perm vals).nodup_iff).mpr (List.nodup_range _)
  have hne : ((vals.zip (List.range vals.length)).insertionSort Matrix.intPairLE).Pairwise
      (fun a b : Int × Nat => a.2 ≠ b.2) := List.pairwise_map.mp hnodup
  have hmemz : ∀ pr ∈ (vals.zip (List.range vals.length)).insertionSort Matrix.intPairLE,
      pr.1 = vals.getD pr.2 0 ∧ pr.2 < vals.length := by
    intro pr hpr
    exact zip_range_mem vals
      ((List.perm_insertionSort Matrix.intPairLE (vals.zip (List.range vals.length))).mem_iff.mp hpr)
  rw [List.pairwise_map]
  refine (hsorted.and hne).imp_of_mem ?_
  intro a b ha hb hab
  obtain ⟨hle, hne2⟩ := hab
  obtain ⟨ha1, _⟩ := hmemz a ha
  obtain ⟨hb1, _⟩ := hmemz b hb
  rcases hle with hlt | ⟨heq, hle2⟩
  · left
    rw [← ha1, ← hb1]
    exact hlt
  · right
    constructor
    · rw [← ha1, ← hb1]; exact heq
    · exact Nat.lt_of_le_of_ne hle2 hne2

theorem findIdx_eq_of_first {α : Type} (p : α → Bool) :
    ∀ (l : List α) (j : Nat) (hj : j < l.length),
      p (l.get ⟨j, hj⟩) = true →
      (∀ k (hk : k < l.length), k < j → p (l.get ⟨k, hk⟩) = false) →
      l.findIdx p = j := by
  intro l
  induction l with
  | nil =>
    intro j hj
    exact absurd hj (by simp)
  | cons a as ih =>
    intro j hj hpj hfirst
    cases j with
    | zero =>
      simp only [List.get] at hpj
      simp [List.findIdx_cons, hpj]
    | succ j =>
      have hpa : p a = false := by
        have := hfirst 0 (by simp) (Nat.succ_pos j)
        simpa using this
      have hj' : j < as.length := Nat.lt_of_succ_lt_succ hj
      have hpj' : p (as.get ⟨j, hj'⟩) = true := by
        simpa using hpj
      have hfirst' : ∀ k (hk : k < as.length), k < j → p (as.get ⟨k, hk⟩) = false := by
        intro k hk hkj
        have := hfirst (k + 1) (Nat.succ_lt_succ hk) (Nat.succ_lt_succ hkj)
        simpa using this
      simp [List.findIdx_cons, hpa, ih j hj' hpj' hfirst']

theorem findIdx?_eq_some_of_first {α : Type} (p : α → Bool) (l : List α) (j : Nat)
    (hj : j < l.length) (hpj : p (l.get ⟨j, hj⟩) = true)
    (hfirst : ∀ k (hk : k < l.length), k < j → p (l.get ⟨k, hk⟩) = false) :
    l.findIdx? p = some j :=
  List.findIdx?_eq_some_iff_findIdx_eq.mpr ⟨hj, findIdx_eq_of_first p l j hj hpj hfirst⟩

theorem dedup_length_eq_iff {α : Type} [DecidableEq α] (l : List α) :
    l.dedup.length = l.length ↔ l.Nodup := by
  constructor
  · intro h
    have heq := (List.dedup_sublist l).eq_of_length h
    rw [← heq]
    exact List.nodup_dedup l
  · intro h
    rw [List.dedup_eq_self.mpr h]

/-- C3: `split(c, v)` returns two fresh matrices: the left holds exactly the
source rows with column-`c` value `< v` and the right the remaining rows, both
in source row order (each is a sublist of the source rows and together they are
a permutation of them), and both results have empty row and column labels. -/
theorem Matrix.split_spec (m : Matrix) (c : Nat) (v : Int) :
    (∀ row ∈ (m.split c v).1.elements, row.getD c 0 < v) ∧
    (∀ row ∈ (m.split c v).2.elements, ¬ row.getD c 0 < v) ∧
    (m.split c v).1.elements.Sublist m.elements ∧
    (m.split c v).2.elements.Sublist m.elements ∧
    ((m.split c v).1.elements ++ (m.split c v).2.elements).Perm m.elements ∧
    (m.split c v).1.row_labels = [] ∧ (m.split c v).1.column_labels = [] ∧
    (m.split c v).2.row_labels = [] ∧ (m.split c v).2.column_labels = [] := by
  simp only [Matrix.split, List.partition_eq_filter_filter]
  refine ⟨?_, ?_, List.filter_sublist _, List.filter_sublist _, ?_, ?_, ?_, ?_, ?_⟩
    <;> try trivial
  · intro row hrow
    exact of_decide_eq_true (List.mem_filter.mp hrow).2
  · intro row hrow
    have h := (List.mem_filter.mp hrow).2
    simp only [Function.comp, Bool.not_eq_true'] at h
    exact of_decide_eq_false h
  · have h := List.filter_append_perm
      (fun row : List Int => decide (row.getD c 0 < v)) m.elements
    simpa [Function.comp] using h

/-- C9: `validate(duplicates_allowed)` succeeds exactly when every row has
`len(column_labels) - 1` values, the row count equals the row-label count, and
(unless duplicates are allowed) both label sequences are duplicate-free; any
violation is reported as an error, and the matrix is only read, never
modified. -/
theorem Matrix.validate_ok_iff (m : Matrix) (d : Bool) :
    m.validate d = .ok () ↔
      ((∀ row ∈ m.elements, (row.length : Int) = (m.column_labels.length : Int) - 1) ∧
       m.elements.length = m.row_labels.length ∧
       (d = false → m.row_labels.Nodup ∧ m.column_labels.Nodup)) := by
  rcases hfind : m.elements.findIdx?
      (fun row => decide ((row.length : Int) ≠ (m.column_labels.length : Int) - 1)) with _ | i
  · have hall : ∀ row ∈ m.elements, (row.length : Int) = (m.column_labels.length : Int) - 1 := by
      intro row hrow
      have h := List.findIdx?_eq_none_iff.mp hfind row hrow
      simpa using h
    simp only [Matrix.validate, hfind]
    by_cases hlen : m.elements.length = m.row_labels.length
    · rcases d with _ | _
      · by_cases hr : m.row_labels.Nodup
        · by_cases hc : m.column_labels.Nodup
          · simp only [hlen, (dedup_length_eq_iff _).mpr hr, (dedup_length_eq_iff _).mpr hc]
            simp [hlen, hr, hc]
            exact hall
          · have : m.column_labels.dedup.length ≠ m.column_labels.length := by
              intro h; exact hc ((dedup_length_eq_iff _).mp h)
            simp [hlen, hall, hr, hc, (dedup_length_eq_iff _).mpr hr, this]
        · have : m.row_labels.dedup.length ≠ m.row_labels.length := by
            intro h; exact hr ((dedup_length_eq_iff _).mp h)
          simp [hlen, hall, hr, this]
      · simp [hlen]
        exact hall
    · simp [hlen, hall]
  · have hbad : ¬ ∀ row ∈ m.elements, (row.length : Int) = (m.column_labels.length : Int) - 1 := by
      intro hall
      have hnone : m.elements.findIdx?
          (fun row => decide ((row.length : Int) ≠ (m.column_labels.length : Int) - 1)) = none := by
        rw [List.findIdx?_eq_none_iff]
        intro row hrow
        simpa using hall row hrow
      rw [hfind] at hnone
      exact Option.noConfusion hnone
    simp only [Matrix.validate, hfind]
    simp [hbad]

/-- C10: on a matrix that has rows but an empty `row_labels` sequence,
`sorted_row_labels` does not fail and returns a matrix with zero rows: the zip
with the empty label list is empty, so every row of the source is dropped. -/
theorem Matrix.sorted_row_labels_empty (m : Matrix)
    (h0 : m.row_labels = []) (_h1 : m.elements ≠ []) (_h2 : 0 < m.columns) :
    m.sorted_row_labels.elements = [] ∧ m.sorted_row_labels.rows = 0 := by
  have h : m.sorted_row_labels.elements = [] := by
    simp [Matrix.sorted_row_labels, Matrix.submatrix, h0]
  exact ⟨h, by simp [Matrix.rows, h]⟩

/-- C1: on a rectangular matrix with at least one row and a valid column index,
`sorted(c)` returns a matrix whose column `c` is non-decreasing and whose rows
are a permutation of the source rows; moreover the row order is a permutation
`p` of the row indices that is strictly increasing on ties of the column-`c`
value, so rows of equal key keep their original relative order (stability). -/
theorem Matrix.sorted_spec (m : Matrix) (c : Nat)
    (_h1 : m.elements ≠ []) (_hc : c < m.columns) (hrect : m.Rect) :
    ((m.sorted c).column c).Sorted (· ≤ ·) ∧
    (m.sorted c).elements.Perm m.elements ∧
    ∃ p : List Nat, p.Perm (List.range m.rows) ∧
      (m.sorted c).elements = p.map (fun i => m.elements.getD i []) ∧
      p.Pairwise (fun i j =>
        (m.elements.getD i []).getD c 0 < (m.elements.getD j []).getD c 0 ∨
        ((m.elements.getD i []).getD c 0 = (m.elements.getD j []).getD c 0 ∧ i < j)) := by
  have hlen : (m.column c).length = m.rows := by
    simp [Matrix.column, Matrix.rows]
  have hrange : List.range m.rows = List.range (m.column c).length := by rw [hlen]
  have hperm0 := sortedPairs_perm (m.column c)
  have hpair0 := sortedPairs_pairwise (m.column c)
  set p := (((m.column c).zip (List.range (m.column c).length)).insertionSort
    Matrix.intPairLE).map Prod.snd with hp
  rw [hlen] at hperm0
  have hpmem : ∀ i ∈ p, i < m.rows := by
    intro i hi
    exact List.mem_range.mp (hperm0.mem_iff.mp hi)
  have hpair : p.Pairwise (fun i j =>
      (m.elements.getD i []).getD c 0 < (m.elements.getD j []).getD c 0 ∨
      ((m.elements.getD i []).getD c 0 = (m.elements.getD j []).getD c 0 ∧ i < j)) := by
    refine hpair0.imp_of_mem ?_
    intro a b ha hb hab
    rw [column_getD m c (hpmem a ha), column_getD m c (hpmem b hb)] at hab
    exact hab
  have hsortedelems : (m.sorted c).elements = p.map (fun i => m.elements.getD i []) := by
    have heq : m.sorted c = m.submatrix p (List.range m.columns) := by
      simp only [Matrix.sorted]
      rw [hrange]
    rw [heq]
    exact submatrix_all_cols m hrect p hpmem
  refine ⟨?_, ?_, p, hperm0, hsortedelems, hpair⟩
  · have hcol : (m.sorted c).column c
        = p.map (fun i => (m.elements.getD i []).getD c 0) := by
      simp only [Matrix.column]
      rw [hsortedelems, List.map_map]
      rfl
    rw [hcol]
    have hple : (p.map (fun i => (m.elements.getD i []).getD c 0)).Pairwise (· ≤ ·) := by
      rw [List.pairwise_map]
      refine hpair.imp ?_
      intro a b hab
      rcases hab with h | ⟨h, _⟩
      · exact le_of_lt h
      · exact le_of_eq h
    exact hple
  · rw [hsortedelems]
    have hstep := hperm0.map (fun i => m.elements.getD i [])
    rwa [map_getD_range_rows m] at hstep

/-- Witness for C1: `sorted(0)` of the concrete matrix with column values
3, 1, 2. -/
theorem Matrix.sorted_spec_witness :
    (((Matrix.mk [[3], [1], [2]] [] []).sorted 0).column 0).Sorted (· ≤ ·) ∧
    ((Matrix.mk [[3], [1], [2]] [] []).sorted 0).elements.Perm
      (Matrix.mk [[3], [1], [2]] [] []).elements ∧
    ∃ p : List Nat, p.Perm (List.range (Matrix.mk [[3], [1], [2]] [] []).rows) ∧
      ((Matrix.mk [[3], [1], [2]] [] []).sorted 0).elements
        = p.map (fun i => (Matrix.mk [[3], [1], [2]] [] []).elements.getD i []) ∧
      p.Pairwise (fun i j =>
        ((Matrix.mk [[3], [1], [2]] [] []).elements.getD i []).getD 0 0
            < ((Matrix.mk [[3], [1], [2]] [] []).elements.getD j []).getD 0 0 ∨
        (((Matrix.mk [[3], [1], [2]] [] []).elements.getD i []).getD 0 0
            = ((Matrix.mk [[3], [1], [2]] [] []).elements.getD j []).getD 0 0 ∧ i < j)) :=
  Matrix.sorted_spec (Matrix.mk [[3], [1], [2]] [] []) 0 (by decide) (by decide) (by decide)

/-- C4: for any shuffled permutation of the row indices, `random_split` on a
rectangular matrix returns two matrices built from disjoint index sets whose
row counts sum to the source row count and differ by at most one; together
their rows are a permutation of the source rows. -/
theorem Matrix.random_split_spec (m : Matrix) (perm : List Nat)
    (hperm : perm.Perm (List.range m.rows)) (_h1 : m.elements ≠ []) (hrect : m.Rect) :
    (m.random_split perm).1.rows + (m.random_split perm).2.rows = m.rows ∧
    ((m.random_split perm).1.rows : Int) - ((m.random_split perm).2.rows : Int) ≤ 1 ∧
    ((m.random_split perm).2.rows : Int) - ((m.random_split perm).1.rows : Int) ≤ 1 ∧
    (perm.take (m.rows / 2)).Disjoint (perm.drop (m.rows / 2)) ∧
    ((m.random_split perm).1.elements ++ (m.random_split perm).2.elements).Perm m.elements := by
  have hplen : perm.length = m.rows := by
    rw [hperm.length_eq, List.length_range]
  have hfst : (m.random_split perm).1
      = m.submatrix (perm.take (m.rows / 2)) (List.range m.columns) := rfl
  have hsnd : (m.random_split perm).2
      = m.submatrix (perm.drop (m.rows / 2)) (List.range m.columns) := rfl
  have hmemtake : ∀ i ∈ perm.take (m.rows / 2), i < m.rows := by
    intro i hi
    exact List.mem_range.mp (hperm.mem_iff.mp (List.mem_of_mem_take hi))
  have hmemdrop : ∀ i ∈ perm.drop (m.rows / 2), i < m.rows := by
    intro i hi
    exact List.mem_range.mp (hperm.mem_iff.mp (List.mem_of_mem_drop hi))
  have hfstel : (m.random_split perm).1.elements
      = (perm.take (m.rows / 2)).map (fun i => m.elements.getD i []) := by
    rw [hfst]; exact submatrix_all_cols m hrect _ hmemtake
  have hsndel : (m.random_split perm).2.elements
      = (perm.drop (m.rows / 2)).map (fun i => m.elements.getD i []) := by
    rw [hsnd]; exact submatrix_all_cols m hrect _ hmemdrop
  have hfrows : (m.random_split perm).1.rows = m.rows / 2 := by
    have hhalf : m.rows / 2 ≤ perm.length := by
      rw [hplen]; exact Nat.div_le_self _ _
    rw [Matrix.rows, hfstel, List.length_map, List.length_take]
    omega
  have hsrows : (m.random_split perm).2.rows = m.rows - m.rows / 2 := by
    rw [Matrix.rows, hsndel, List.length_map, List.length_drop, hplen]
  refine ⟨?_, ?_, ?_, ?_, ?_⟩
  · rw [hfrows, hsrows]; omega
  · rw [hfrows, hsrows]
    have := Nat.div_le_self m.rows 2
    omega
  · rw [hfrows, hsrows]
    omega
  · have hnd : perm.Nodup := hperm.nodup_iff.mpr (List.nodup_range _)
    rw [← List.take_append_drop (m.rows / 2) perm] at hnd
    exact (List.nodup_append.mp hnd).2.2
  · rw [hfstel, hsndel, ← List.map_append, List.take_append_drop]
    have hstep := hperm.map (fun i => m.elements.getD i [])
    rwa [map_getD_range_rows m] at hstep

/-- Witness for C4 at a concrete three-row matrix and the shuffle 2, 0, 1. -/
theorem Matrix.random_split_spec_witness :
    ((Matrix.mk [[1], [2], [3]] [] []).random_split [2, 0, 1]).1.rows
        + ((Matrix.mk [[1], [2], [3]] [] []).random_split [2, 0, 1]).2.rows
        = (Matrix.mk [[1], [2], [3]] [] []).rows ∧
    ((((Matrix.mk [[1], [2], [3]] [] []).random_split [2, 0, 1]).1.rows : Int)
        - (((Matrix.mk [[1], [2], [3]] [] []).random_split [2, 0, 1]).2.rows : Int)) ≤ 1 ∧
    ((((Matrix.mk [[1], [2], [3]] [] []).random_split [2, 0, 1]).2.rows : Int)
        - (((Matrix.mk [[1], [2], [3]] [] []).random_split [2, 0, 1]).1.rows : Int)) ≤ 1 ∧
    (List.take ((Matrix.mk [[1], [2], [3]] [] []).rows / 2) [2, 0, 1]).Disjoint
      (List.drop ((Matrix.mk [[1], [2], [3]] [] []).rows / 2) [2, 0, 1]) ∧
    (((Matrix.mk [[1], [2], [3]] [] []).random_split [2, 0, 1]).1.elements
        ++ ((Matrix.mk [[1], [2], [3]] [] []).random_split [2, 0, 1]).2.elements).Perm
      (Matrix.mk [[1], [2], [3]] [] []).elements :=
  Matrix.random_split_spec (Matrix.mk [[1], [2], [3]] [] []) [2, 0, 1]
    (by decide) (by decide) (by decide)

/-- Counterexample to C8 as stated: on a one-row matrix, `random_subset` with
`n = 5 > 1` does not fail — the Python slice `rows[:5]` clamps, and a matrix
with the single source row (not five rows, and no error) is returned. -/
theorem Matrix.random_subset_counterexample :
    ((Matrix.mk [[7]] [] []).random_subset [0] 5).elements = [[7]] ∧
    ((Matrix.mk [[7]] [] []).random_subset [0] 5).rows ≠ 5 := by
  decide

/-- C8 amended: `random_subset(n)` never fails; it returns `min n row_count`
rows drawn without replacement from the source — the kept index list is
duplicate-free and in range, and the result rows are exactly the source rows
at those positions. -/
theorem Matrix.random_subset_spec (m : Matrix) (perm : List Nat) (n : Nat)
    (hperm : perm.Perm (List.range m.rows)) (hrect : m.Rect) :
    (m.random_subset perm n).rows = min n m.rows ∧
    (perm.take n).Nodup ∧
    (∀ i ∈ perm.take n, i < m.rows) ∧
    (m.random_subset perm n).elements
      = (perm.take n).map (fun i => m.elements.getD i []) := by
  have hplen : perm.length = m.rows := by
    rw [hperm.length_eq, List.length_range]
  have hmemtake : ∀ i ∈ perm.take n, i < m.rows := by
    intro i hi
    exact List.mem_range.mp (hperm.mem_iff.mp (List.mem_of_mem_take hi))
  have hel : (m.random_subset perm n).elements
      = (perm.take n).map (fun i => m.elements.getD i []) :=
    submatrix_all_cols m hrect _ hmemtake
  refine ⟨?_, ?_, hmemtake, hel⟩
  · rw [Matrix.rows, hel, List.length_map, List.length_take, hplen]
  · have hnd : perm.Nodup := hperm.nodup_iff.mpr (List.nodup_range _)
    exact hnd.sublist (List.take_sublist n perm)

/-- Witness for the amended C8 on a concrete one-row matrix with `n = 5`. -/
theorem Matrix.random_subset_spec_witness :
    ((Matrix.mk [[7]] [] []).random_subset [0] 5).rows
        = min 5 (Matrix.mk [[7]] [] []).rows ∧
    (List.take 5 [0]).Nodup ∧
    (∀ i ∈ List.take 5 [0], i < (Matrix.mk [[7]] [] []).rows) ∧
    ((Matrix.mk [[7]] [] []).random_subset [0] 5).elements
      = (List.take 5 [0]).map (fun i => (Matrix.mk [[7]] [] []).elements.getD i []) :=
  Matrix.random_subset_spec (Matrix.mk [[7]] [] []) [0] 5 (by decide) (by decide)

/-- Counterexample to C5 as stated: with the placeholder convention, in column
labels `["id", "x", "y"]` the name `"x"` first occurs at slot 1, so the claim
says the data column at position 0 (values 10, 30) is returned; the code
delegates to `column(1)` and returns the values 20, 40 instead. -/
theorem Matrix.column_by_name_counterexample :
    (Matrix.mk [[10, 20], [30, 40]] ["r1", "r2"] ["id", "x", "y"]).column_by_name "x"
        = some [20, 40] ∧
    (Matrix.mk [[10, 20], [30, 40]] ["r1", "r2"] ["id", "x", "y"]).column_by_name "x"
        ≠ some [10, 30] := by
  decide

/-- C5 amended: `column_by_name(name)` resolves `name` to the slot index `j` of
its first occurrence in `column_labels` and returns the row values at position
`j` itself — under the placeholder convention that is the data column labelled
by slot `j + 1`, not the one labelled by slot `j` — and returns the
label-not-found failure when `name` is absent. -/
theorem Matrix.column_by_name_spec :
    (∀ (m : Matrix) (name : String) (j : Nat) (hj : j < m.column_labels.length),
      m.column_labels.get ⟨j, hj⟩ = name →
      (∀ k (hk : k < m.column_labels.length), k < j → m.column_labels.get ⟨k, hk⟩ ≠ name) →
      m.column_by_name name = some (m.elements.map (fun row => row.getD j 0))) ∧
    (∀ (m : Matrix) (name : String), name ∉ m.column_labels →
      m.column_by_name name = none) := by
  constructor
  · intro m name j hj hname hfirst
    have hfind : m.column_labels.findIdx? (fun l => l == name) = some j := by
      apply findIdx?_eq_some_of_first
      · simpa using hname
      · intro k hk hkj
        simpa using hfirst k hk hkj
    simp only [Matrix.column_by_name, hfind]
    rfl
  · intro m name hmem
    have hfind : m.column_labels.findIdx? (fun l => l == name) = none := by
      rw [List.findIdx?_eq_none_iff]
      intro x hx
      simp only [beq_eq_false_iff_ne, ne_eq]
      intro hxe
      exact hmem (hxe ▸ hx)
    simp only [Matrix.column_by_name, hfind]

/-- Witness for the amended C5: the first-occurrence case at slot 1 of the
concrete matrix and the absent-name case. -/
theorem Matrix.column_by_name_spec_witness :
    (Matrix.mk [[10, 20], [30, 40]] ["r1", "r2"] ["id", "x", "y"]).column_by_name "x"
        = some ((Matrix.mk [[10, 20], [30, 40]] ["r1", "r2"] ["id", "x", "y"]).elements.map
            (fun row => row.getD 1 0)) ∧
    (Matrix.mk [[10, 20], [30, 40]] ["r1", "r2"] ["id", "x", "y"]).column_by_name "zzz"
        = none :=
  ⟨Matrix.column_by_name_spec.1 (Matrix.mk [[10, 20], [30, 40]] ["r1", "r2"] ["id", "x", "y"])
      "x" 1 (by decide) (by decide) (by decide),
    Matrix.column_by_name_spec.2 (Matrix.mk [[10, 20], [30, 40]] ["r1", "r2"] ["id", "x", "y"])
      "zzz" (by decide)⟩

theorem mergeRows_column_labels (other : Matrix) :
    ∀ (labels : List String) (s s2 : Matrix),
      Matrix.mergeRows other s labels = .ok s2 ∨ Matrix.mergeRows other s labels = .error s2 →
      s2.column_labels = s.column_labels := by
  intro labels
  induction labels with
  | nil =>
    intro s s2 h
    rcases h with h | h
    · simp only [Matrix.mergeRows] at h
      have hs : s = s2 := by injection h
      rw [← hs]
    · simp only [Matrix.mergeRows] at h
      exact Except.noConfusion h
  | cons label rest ih =>
    intro s s2 h
    rcases hfind : s.row_labels.findIdx? (fun l => l == label) with _ | i
    · rcases h with h | h
      · simp only [Matrix.mergeRows, hfind] at h
        exact Except.noConfusion h
      · simp only [Matrix.mergeRows, hfind] at h
        have hs : s = s2 := by injection h
        rw [← hs]
    · rcases hfind2 : other.row_labels.findIdx? (fun l => l == label) with _ | k
      · rcases h with h | h
        · simp only [Matrix.mergeRows, hfind, hfind2] at h
          exact Except.noConfusion h
        · simp only [Matrix.mergeRows, hfind, hfind2] at h
          have hs : s = s2 := by injection h
          rw [← hs]
      · have hrec : Matrix.mergeRows other s (label :: rest)
            = Matrix.mergeRows other
              { s with elements :=
                  s.elements.set i (s.elements.getD i [] ++ other.elements.getD k []) }
              rest := by
          simp only [Matrix.mergeRows, hfind, hfind2]
        rw [hrec] at h
        exact ih ⟨s.elements.set i (s.elements.getD i [] ++ other.elements.getD k []),
          s.row_labels, s.column_labels⟩ s2 h

/-- Counterexample to C6 as stated: merging a matrix whose row label `"c"` is
absent from the receiver fails, but the receiver state carried by the failure
already has the column label `"y"` appended — the receiver is modified, not
left intact. -/
theorem Matrix.merge_counterexample :
    (Matrix.mk [[1]] ["a"] ["id", "x"]).merge (Matrix.mk [[9]] ["c"] ["id", "y"])
        = .error (Matrix.mk [[1]] ["a"] ["id", "x", "y"]) ∧
    (Matrix.mk [[1]] ["a"] ["id", "x", "y"]).column_labels
        ≠ (Matrix.mk [[1]] ["a"] ["id", "x"]).column_labels :=
  ⟨rfl, by decide⟩

/-- C6 amended: a failing `merge` is not all-or-nothing — whenever
`merge(other)` fails because a row label of `other` is absent from the
receiver, the receiver state carried by the failure already has `other`'s
column labels beyond the placeholder appended, so the receiver is left
modified whenever `other` has any non-placeholder column label. -/
theorem Matrix.merge_error_spec (self other s : Matrix)
    (h : self.merge other = .error s) :
    s.column_labels = self.column_labels ++ other.column_labels.drop 1 ∧
    (other.column_labels.drop 1 ≠ [] → s.column_labels ≠ self.column_labels) := by
  have h1 := mergeRows_column_labels other other.row_labels _ s (Or.inr h)
  have h2 : s.column_labels = self.column_labels ++ other.column_labels.drop 1 := h1
  refine ⟨h2, ?_⟩
  intro hne heq
  rw [h2] at heq
  have hlen := congrArg List.length heq
  rw [List.length_append] at hlen
  have : (other.column_labels.drop 1).length = 0 := by omega
  exact hne (List.eq_nil_of_length_eq_zero this)

/-- Witness for the amended C6 at the concrete failing merge. -/
theorem Matrix.merge_error_spec_witness :
    (Matrix.mk [[1]] ["a"] ["id", "x", "y"]).column_labels
        = (Matrix.mk [[1]] ["a"] ["id", "x"]).column_labels
          ++ (Matrix.mk [[9]] ["c"] ["id", "y"]).column_labels.drop 1 ∧
    ((Matrix.mk [[9]] ["c"] ["id", "y"]).column_labels.drop 1 ≠ [] →
      (Matrix.mk [[1]] ["a"] ["id", "x", "y"]).column_labels
        ≠ (Matrix.mk [[1]] ["a"] ["id", "x"]).column_labels) :=
  Matrix.merge_error_spec (Matrix.mk [[1]] ["a"] ["id", "x"])
    (Matrix.mk [[9]] ["c"] ["id", "y"]) (Matrix.mk [[1]] ["a"] ["id", "x", "y"]) rfl

theorem loadLines_spec (datatype : String → Option Int) (ch rh : Bool) :
    ∀ (lines : List String) (s : Matrix) (i : Nat), ¬(ch = true ∧ i = 0) →
      Matrix.loadLines datatype ch rh s lines i
        = (Matrix.pureParse datatype rh lines).map (fun er =>
            ⟨s.elements ++ er.1, s.row_labels ++ er.2, s.column_labels⟩) := by
  intro lines
  induction lines with
  | nil =>
    intro s i _
    simp [Matrix.loadLines, Matrix.pureParse]
  | cons line rest ih =>
    intro s i hi
    have hi' : ¬(ch = true ∧ i + 1 = 0) := by
      rintro ⟨_, hsucc⟩
      exact Nat.succ_ne_zero i hsucc
    cases rh with
    | false =>
      simp only [Matrix.loadLines, Matrix.pureParse]
      rw [if_neg hi]
      split
      · rfl
      · rw [ih _ (i + 1) hi']
        rcases hp : Matrix.pureParse datatype false rest with _ | er
        · simp [hp]
        · simp [hp, List.append_assoc]
    | true =>
      simp only [Matrix.loadLines, Matrix.pureParse]
      rw [if_neg hi]
      split
      · rfl
      · rw [ih _ (i + 1) hi']
        rcases hp : Matrix.pureParse datatype true rest with _ | er
        · simp [hp]
        · simp [hp, List.append_assoc]

/-- C7 amended: a completed `load` resets and rebuilds `elements` from the
stream alone, but it appends the parsed row labels after the pre-call
`row_labels`, and it replaces `column_labels` only when `col_headers` is set
and the stream is nonempty — otherwise the pre-call column labels survive.
Only `elements` is independent of the pre-call state. -/
theorem Matrix.load_spec (s : Matrix) (lines : List String) (datatype : String → Option Int)
    (ch rh : Bool) (m2 : Matrix) (h : s.load lines datatype ch rh = some m2) :
    ∃ er : List (List Int) × List String,
      Matrix.pureParse datatype rh (if ch = true then lines.drop 1 else lines) = some er ∧
      m2.elements = er.1 ∧
      m2.row_labels = s.row_labels ++ er.2 ∧
      m2.column_labels =
        (if ch = true ∧ lines ≠ [] then Matrix.tokensOf (lines.headD "")
         else s.column_labels) := by
  cases ch with
  | false =>
    rw [Matrix.load,
      loadLines_spec datatype false rh lines ⟨[], s.row_labels, s.column_labels⟩ 0
        (by simp)] at h
    obtain ⟨er, hp, hf⟩ := Option.map_eq_some'.mp h
    refine ⟨er, by simpa using hp, ?_, ?_, ?_⟩
    · rw [← hf]
      rfl
    · rw [← hf]
    · rw [← hf]
      simp
  | true =>
    cases lines with
    | nil =>
      rw [Matrix.load] at h
      simp only [Matrix.loadLines] at h
      have hm2 : (⟨[], s.row_labels, s.column_labels⟩ : Matrix) = m2 := by injection h
      refine ⟨([], []), rfl, ?_, ?_, ?_⟩
      · rw [← hm2]
      · rw [← hm2]; simp
      · rw [← hm2]; simp
    | cons l0 rest =>
      rw [Matrix.load] at h
      have hstep : Matrix.loadLines datatype true rh ⟨[], s.row_labels, s.column_labels⟩
          (l0 :: rest) 0
          = Matrix.loadLines datatype true rh
              ⟨[], s.row_labels, Matrix.tokensOf l0⟩ rest 1 := by
        simp [Matrix.loadLines]
      rw [hstep,
        loadLines_spec datatype true rh rest ⟨[], s.row_labels, Matrix.tokensOf l0⟩ 1
          (by simp)] at h
      obtain ⟨er, hp, hf⟩ := Option.map_eq_some'.mp h
      refine ⟨er, by simpa using hp, ?_, ?_, ?_⟩
      · rw [← hf]
        simp
      · rw [← hf]
      · rw [← hf]
        simp

/-- Counterexample to C7 as stated: loading the same (empty) stream with the
same flags into a matrix that already holds labels and into an empty matrix
gives different results — `load` resets only `elements`, so the pre-call
`row_labels` and `column_labels` survive into the loaded matrix. -/
theorem Matrix.load_counterexample :
    (Matrix.mk [] ["old"] ["stale"]).load [] (fun t => t.toInt?) false true
        = some (Matrix.mk [] ["old"] ["stale"]) ∧
    (Matrix.mk [] ["old"] ["stale"]).load [] (fun t => t.toInt?) false true
        ≠ (Matrix.mk [] [] []).load [] (fun t => t.toInt?) false true := by
  refine ⟨rfl, ?_⟩
  intro hcontra
  have h1 : (Matrix.mk [] ["old"] ["stale"]).load [] (fun t => t.toInt?) false true
      = some (Matrix.mk [] ["old"] ["stale"]) := rfl
  have h2 : (Matrix.mk [] [] []).load [] (fun t => t.toInt?) false true
      = some (Matrix.mk [] [] []) := rfl
  rw [h1, h2] at hcontra
  have h3 : (Matrix.mk [] ["old"] ["stale"]) = (Matrix.mk [] [] []) := by
    injection hcontra
  exact absurd h3 (by decide)

/-- Witness for the amended C7 at the empty stream and a label-carrying
pre-call state. -/
theorem Matrix.load_spec_witness :
    ∃ er : List (List Int) × List String,
      Matrix.pureParse (fun t => t.toInt?) true
          (if false = true then ([] : List String).drop 1 else []) = some er ∧
      (Matrix.mk [] ["old"] ["stale"]).elements = er.1 ∧
      (Matrix.mk [] ["old"] ["stale"]).row_labels
        = (Matrix.mk [] ["old"] ["stale"]).row_labels ++ er.2 ∧
      (Matrix.mk [] ["old"] ["stale"]).column_labels
        = (if false = true ∧ ([] : List String) ≠ [] then
            Matrix.tokensOf (([] : List String).headD "")
           else (Matrix.mk [] ["old"] ["stale"]).column_labels) :=
  Matrix.load_spec (Matrix.mk [] ["old"] ["stale"]) [] (fun t => t.toInt?) false true
    (Matrix.mk [] ["old"] ["stale"]) rfl

/-- C2: on a rectangular matrix with at least one row and at least one column,
applying `transpose` twice restores every element and both label sequences. -/
theorem Matrix.transpose_transpose (m : Matrix)
    (h1 : m.elements ≠ []) (h2 : 0 < m.columns) (hrect : m.Rect) :
    m.transpose.transpose = m := by
  have hrows : 0 < m.rows := List.length_pos.mpr h1
  have ht_rows : m.transpose.rows = m.columns := by
    simp [Matrix.transpose, Matrix.rows]
  have ht_cols : m.transpose.columns = m.rows := by
    show (((List.range m.columns).map
      (fun j => (List.range m.rows).map
        (fun i => (m.elements.getD i []).getD j 0))).getD 0 []).length = m.rows
    rw [getD_map_range _ _ h2]
    simp
  have key : ∀ j < m.rows, ∀ i < m.columns,
      (m.transpose.elements.getD i []).getD j 0 = (m.elements.getD j []).getD i 0 := by
    intro j hj i hi
    show (((List.range m.columns).map
      (fun jj => (List.range m.rows).map
        (fun ii => (m.elements.getD ii []).getD jj 0))).getD i []).getD j 0 = _
    rw [getD_map_range _ _ hi, getD_map_range _ _ hj]
  have helems : m.transpose.transpose.elements = m.elements := by
    have h0 : m.transpose.transpose.elements
        = (List.range m.rows).map (fun j => (List.range m.columns).map (fun i =>
            (m.transpose.elements.getD i []).getD j 0)) := by
      show (List.range m.transpose.columns).map (fun j =>
        (List.range m.transpose.rows).map (fun i =>
          (m.transpose.elements.getD i []).getD j 0)) = _
      rw [ht_cols, ht_rows]
    rw [h0]
    have hinner : ∀ j ∈ List.range m.rows,
        (List.range m.columns).map (fun i => (m.transpose.elements.getD i []).getD j 0)
          = m.elements.getD j [] := by
      intro j hj
      rw [List.mem_range] at hj
      rw [List.map_congr_left (fun i hi => key j hj i (List.mem_range.mp hi))]
      have hj' : j < m.elements.length := hj
      rw [List.getD_eq_getElem _ _ hj']
      have hlen : m.elements[j].length = m.columns :=
        hrect _ (List.getElem_mem hj')
      rw [← hlen]
      exact map_range_getD _ 0
    rw [List.map_congr_left hinner]
    have : m.rows = m.elements.length := rfl
    rw [this]
    exact map_range_getD m.elements []
  exact Matrix.ext helems rfl rfl

/-- Witness for C2: double transpose of a concrete labelled 2-by-2 matrix. -/
theorem Matrix.transpose_transpose_witness :
    (Matrix.mk [[1, 2], [3, 4]] ["r1", "r2"] ["id", "a", "b"]).transpose.transpose
      = Matrix.mk [[1, 2], [3, 4]] ["r1", "r2"] ["id", "a", "b"] :=
  Matrix.transpose_transpose _ (by decide) (by decide) (by decide)

/-- Witness for C10 at a concrete one-row, one-column matrix without labels. -/
theorem Matrix.sorted_row_labels_empty_witness :
    (Matrix.mk [[1]] [] []).sorted_row_labels.elements = [] ∧
    (Matrix.mk [[1]] [] []).sorted_row_labels.rows = 0 :=
  Matrix.sorted_row_labels_empty (Matrix.mk [[1]] [] []) rfl (by decide) (by decide)

end Cart
